import Mathlib

/-!
Shallow embedding of the provisioning MCP servers' core machinery:
the retry engine (`src/mcp-servers/shared/retry.ts`), the secret vault
(`src/mcp-servers/shared/secret-vault.ts`), the readiness poller and the
tool-dispatch boundary of the Supabase server (`src/mcp-servers/supabase/index.ts`)
and of the GitHub server.

JavaScript strings are modelled as Lean `String` (or `List Char` where the
code manipulates character data), JS `Map` as an insertion-ordered
association list, thrown exceptions as the `Except` error component, and
each call to `crypto.randomBytes` as an explicit argument supplying the
random bytes drawn by that call.
-/

/-! ## JS `Map` model (insertion-ordered association list) -/

/-- `Map.prototype.set`: overwrite in place when the key is present,
append at the end otherwise. -/
def mapSet {α : Type} : List (String × α) → String → α → List (String × α)
  | [], k, v => [(k, v)]
  | (k', v') :: rest, k, v =>
    if k' = k then (k, v) :: rest else (k', v') :: mapSet rest k v

/-- `Map.prototype.get`: first binding of the key, if any. -/
def mapGet {α : Type} : List (String × α) → String → Option α
  | [], _ => none
  | (k', v') :: rest, k => if k' = k then some v' else mapGet rest k

/-- `Map.prototype.delete`: remove the binding of the key, if any. -/
def mapDelete {α : Type} : List (String × α) → String → List (String × α)
  | [], _ => []
  | (k', v') :: rest, k => if k' = k then rest else (k', v') :: mapDelete rest k

theorem mapGet_mapSet_self {α : Type} (m : List (String × α)) (k : String) (v : α) :
    mapGet (mapSet m k v) k = some v := by
  induction m with
  | nil => simp [mapSet, mapGet]
  | cons hd tl ih =>
    obtain ⟨k', v'⟩ := hd
    by_cases h : k' = k
    · subst h; simp [mapSet, mapGet]
    · simp [mapSet, mapGet, h, ih]

/-! ## Retry engine (`src/mcp-servers/shared/retry.ts`, `withRetry`)

A JS error reaching the `catch` block carries a `message` and an optional
HTTP status. `status : Option Nat` models the truthiness of
`err.status || err.statusCode`: `none` when that JS expression is falsy
(the error carries no status code), `some s` when it yields the number `s`. -/

structure JsError where
  message : String
  status : Option Nat
deriving DecidableEq, Repr

/-- Outcome of one invocation of the wrapped operation `fn`: resolve with a
value or reject with an error. -/
inductive AttemptResult (α : Type) where
  | ok (v : α)
  | fail (e : JsError)

/-- The `options` argument of `withRetry`, after destructuring. -/
structure RetryOptions where
  maxRetries : Nat
  initialDelayMs : Nat
  retryOn : List Nat
deriving DecidableEq, Repr

/-- The default option values of `withRetry`. -/
def defaultRetryOptions : RetryOptions :=
  { maxRetries := 3, initialDelayMs := 1000, retryOn := [429, 502, 503, 504] }

/-- The retry condition `!status || retryOn.includes(status)`. -/
def shouldRetryStatus (o : RetryOptions) (st : Option Nat) : Bool :=
  match st with
  | none => true
  | some s => o.retryOn.contains s

/-- Observable trace of a `withRetry` run: the propagated result (resolved
value or rethrown error), how many times `fn` was invoked, and the backoff
delays awaited between attempts, in order. -/
structure RetryTrace (α : Type) where
  result : Except JsError α
  calls : Nat
  delays : List Nat

/-- The `for (let attempt = 0; attempt <= maxRetries; attempt++)` loop of
`withRetry`, entered at loop index `attempt`; `f i` is the outcome of the
`i`-th invocation of `fn`. On a failure with `attempt < maxRetries` and a
retryable (or absent) status it waits `initialDelayMs * 2 ^ attempt` and
continues with the next attempt; otherwise it rethrows that failure. -/
def retryGo {α : Type} (f : Nat → AttemptResult α) (o : RetryOptions)
    (attempt : Nat) : RetryTrace α :=
  match f attempt with
  | .ok v => ⟨.ok v, 1, []⟩
  | .fail e =>
    if h : attempt < o.maxRetries ∧ shouldRetryStatus o e.status = true then
      let rest := retryGo f o (attempt + 1)
      ⟨rest.result, rest.calls + 1, o.initialDelayMs * 2 ^ attempt :: rest.delays⟩
    else
      ⟨.error e, 1, []⟩
termination_by o.maxRetries - attempt
decreasing_by omega

/-- `withRetry(fn, options)`: run the attempt loop from attempt 0. -/
def withRetry {α : Type} (f : Nat → AttemptResult α) (o : RetryOptions) : RetryTrace α :=
  retryGo f o 0

theorem retryGo_calls_le {α : Type} (f : Nat → AttemptResult α) (o : RetryOptions)
    (attempt : Nat) (ha : attempt ≤ o.maxRetries) :
    (retryGo f o attempt).calls ≤ o.maxRetries + 1 - attempt := by
  revert ha
  induction attempt using retryGo.induct f o with
  | case1 x v hf =>
    intro ha; rw [retryGo]; simp [hf]; omega
  | case2 x e hf hcond ih =>
    intro ha; rw [retryGo]; simp [hf, hcond]
    have := ih (by omega)
    omega
  | case3 x e hf hcond =>
    intro ha; rw [retryGo]; simp [hf, hcond]; omega

theorem retryGo_exhaust {α : Type} (f : Nat → AttemptResult α) (o : RetryOptions)
    (es : Nat → JsError)
    (hfail : ∀ i, i ≤ o.maxRetries → f i = .fail (es i))
    (hretry : ∀ i, i < o.maxRetries → shouldRetryStatus o (es i).status = true)
    (attempt : Nat) (ha : attempt ≤ o.maxRetries) :
    (retryGo f o attempt).result = .error (es o.maxRetries) := by
  revert ha
  induction attempt using retryGo.induct f o with
  | case1 x v hf =>
    intro ha
    rw [hfail x ha] at hf
    exact absurd hf (by simp)
  | case2 x e hf hcond ih =>
    intro ha
    rw [retryGo]; simp [hf, hcond]
    exact ih (by omega)
  | case3 x e hf hcond =>
    intro ha
    have hx : x = o.maxRetries := by
      by_contra hne
      have hlt : x < o.maxRetries := by omega
      have hr := hretry x hlt
      have hfx := hfail x ha
      rw [hfx] at hf
      cases hf
      exact hcond ⟨hlt, hr⟩
    rw [retryGo]; simp [hf]
    rw [if_neg hcond]
    have hfx := hfail x ha
    rw [hfx] at hf
    cases hf
    rw [hx]

/-! ## Secret vault (`src/mcp-servers/shared/secret-vault.ts`)

The stored blob for a key is the string `iv.toString('hex') + ':' + encrypted`,
modelled as a `List Char`. AES-256-CBC under the vault's fixed 32-byte key
(`crypto.createCipheriv` / `crypto.createDecipheriv`) is a library facility,
not repository code, so it is abstracted as a `Cipher`: an encrypt/decrypt
pair under the vault key, taking the hex-rendered initialization vector,
whose stated properties record exactly what the vault relies on — that
decryption under the same iv inverts encryption, and that the hex-rendered
ciphertext contains no `:` separator character. -/

structure Cipher where
  encrypt : List Char → String → List Char
  decrypt : List Char → List Char → String
  decrypt_encrypt : ∀ iv v, decrypt iv (encrypt iv v) = v
  encrypt_no_sep : ∀ iv v, (':' : Char) ∉ encrypt iv v

/-- `String.prototype.split(sep)`: all separated fields, in order. -/
def splitParts (sep : Char) : List Char → List (List Char)
  | [] => [[]]
  | c :: rest =>
    if c = sep then [] :: splitParts sep rest
    else
      match splitParts sep rest with
      | [] => [[c]]
      | p :: ps => (c :: p) :: ps

theorem splitParts_no_sep (sep : Char) (b : List Char) (hb : sep ∉ b) :
    splitParts sep b = [b] := by
  induction b with
  | nil => rfl
  | cons c rest ih =>
    have hc : ¬c = sep := fun h => hb (h ▸ List.mem_cons_self c rest)
    have hrest : sep ∉ rest := fun h => hb (List.mem_cons_of_mem _ h)
    simp [splitParts, hc, ih hrest]

theorem splitParts_append (sep : Char) (a b : List Char) (ha : sep ∉ a) :
    splitParts sep (a ++ sep :: b) = a :: splitParts sep b := by
  induction a with
  | nil => simp [splitParts]
  | cons c rest ih =>
    have hc : ¬c = sep := fun h => ha (h ▸ List.mem_cons_self c rest)
    have hrest : sep ∉ rest := fun h => ha (List.mem_cons_of_mem _ h)
    simp [splitParts, hc, ih hrest]

/-- The private fields of a `SecretVault` instance: the `secrets` map from
key to stored `iv:ciphertext` blob, the raw bytes of the 32-byte
`encryptionKey` buffer, and the `isDestroyed` flag. -/
structure VaultState where
  secrets : List (String × List Char)
  encryptionKey : List Nat
  isDestroyed : Bool
deriving DecidableEq, Repr

/-- The typed errors the vault throws: `VaultDestroyedError`
(`Vault has been destroyed`) and `SecretNotFoundError`
(`Secret <name> not found in vault`). -/
inductive VaultError where
  | destroyed
  | secretNotFound (name : List Char)
deriving DecidableEq, Repr

namespace SecretVault

/-- The constructor: no secrets, a freshly drawn 32-byte random key
(supplied here as the explicit argument `key`), not destroyed. -/
def create (key : List Nat) : VaultState :=
  { secrets := [], encryptionKey := key, isDestroyed := false }

/-- `store(key, value)`: throw if destroyed, otherwise encrypt `value`
under the fresh random iv drawn by this call (explicit argument `iv`,
hex-rendered) and store the `iv:encrypted` blob under `key`. -/
def store (c : Cipher) (iv : List Char) (s : VaultState) (key value : String) :
    Except VaultError VaultState :=
  if s.isDestroyed then .error .destroyed
  else
    let encrypted := c.encrypt iv value
    .ok { s with secrets := mapSet s.secrets key (iv ++ ':' :: encrypted) }

/-- `retrieve(key)`: throw if destroyed; `null` when the key is unbound
(or, JS falsiness, bound to an empty string); otherwise split the blob at
`:` and decrypt. -/
def retrieve (c : Cipher) (s : VaultState) (key : String) :
    Except VaultError (Option String) :=
  if s.isDestroyed then .error .destroyed
  else
    match mapGet s.secrets key with
    | none => .ok none
    | some stored =>
      if stored = [] then .ok none
      else
        let parts := splitParts ':' stored
        .ok (some (c.decrypt (parts.getD 0 []) (parts.getD 1 [])))

/-- JS `\w` character class: ASCII letters, digits, underscore. -/
def isWordChar (ch : Char) : Bool :=
  ch.isAlphanum || ch = '_'

/-- The literal characters of the opening of the placeholder pattern. -/
def placeholderOpen : List Char := "\x7b\x7bsecrets.".data

/-- The literal characters of the close of the placeholder pattern. -/
def placeholderClose : List Char := "\x7d\x7d".data

/-- One anchored attempt of the regex at the head of `s`:
the opening literal, then a nonempty greedy run of word characters
(the capture group), then the closing braces. -/
def placeholderAt (s : List Char) : Option (List Char) :=
  if placeholderOpen.isPrefixOf s then
    let rest := s.drop placeholderOpen.length
    let nm := rest.takeWhile isWordChar
    if nm ≠ [] ∧ placeholderClose.isPrefixOf (rest.drop nm.length) then
      some nm
    else none
  else none

/-- `reference.match(<placeholder regex>)`: the capture group of the first
position at which the pattern matches, scanning left to right. -/
def findPlaceholder : List Char → Option (List Char)
  | [] => none
  | c :: rest =>
    match placeholderAt (c :: rest) with
    | some nm => some nm
    | none => findPlaceholder rest

/-- `resolve(reference)`: throw if destroyed; return the input unchanged
when the placeholder regex does not match; otherwise retrieve the captured
name and return the decrypted value itself, throwing `SecretNotFoundError`
when the key is unbound (or, JS falsiness, decrypts to the empty string). -/
def resolve (c : Cipher) (s : VaultState) (reference : String) :
    Except VaultError String :=
  if s.isDestroyed then .error .destroyed
  else
    match findPlaceholder reference.data with
    | none => .ok reference
    | some nm =>
      match retrieve c s (String.mk nm) with
      | .error e => .error e
      | .ok none => .error (.secretNotFound nm)
      | .ok (some value) =>
        if value.isEmpty then .error (.secretNotFound nm) else .ok value

/-- `listKeys()`: throw if destroyed, otherwise the keys in order. -/
def listKeys (s : VaultState) : Except VaultError (List String) :=
  if s.isDestroyed then .error .destroyed
  else .ok (s.secrets.map Prod.fst)

/-- `has(key)`: no destroyed check and no throw path in the source; it
always returns normally, so it is always `.ok`. -/
def has (s : VaultState) (key : String) : Except VaultError Bool :=
  .ok (mapGet s.secrets key).isSome

/-- `delete(key)`: no destroyed check and no throw path in the source;
returns whether the key was bound, together with the updated instance. -/
def delete (s : VaultState) (key : String) : Except VaultError (Bool × VaultState) :=
  .ok ((mapGet s.secrets key).isSome, { s with secrets := mapDelete s.secrets key })

/-- `destroy()`: clear the secrets map, overwrite every byte of the key
buffer with zero (`fill(0)`), set the destroyed flag. No throw path. -/
def destroy (s : VaultState) : VaultState :=
  { secrets := [],
    encryptionKey := s.encryptionKey.map (fun _ => 0),
    isDestroyed := true }

/-- The value returned by `getStatus()`. -/
structure Status where
  secretCount : Nat
  isDestroyed : Bool
deriving DecidableEq, Repr

/-- `getStatus()`: no destroyed check and no throw path in the source. -/
def getStatus (s : VaultState) : Except VaultError Status :=
  .ok { secretCount := s.secrets.length, isDestroyed := s.isDestroyed }

end SecretVault

/-! ## A concrete executable cipher

Witness instantiations need a computable `Cipher` satisfying the two stated
properties. `escCipher` is an escape coder: `:` is written as the pair
`ab`, a literal `a` as the pair `aa`, every other character as itself, so
the output never contains `:` and decoding inverts encoding. -/

/-- Escape one character. -/
def escEncodeChar (ch : Char) : List Char :=
  if ch = ':' then ['a', 'b']
  else if ch = 'a' then ['a', 'a']
  else [ch]

/-- Escape a character list. -/
def escEncode : List Char → List Char
  | [] => []
  | ch :: rest => escEncodeChar ch ++ escEncode rest

/-- Undo `escEncode`: an `a` always opens a two-character escape pair. -/
def escDecode : List Char → List Char
  | [] => []
  | [ch] => if ch = 'a' then [] else [ch]
  | ch :: d :: rest =>
    if ch = 'a' then (if d = 'b' then ':' else 'a') :: escDecode rest
    else ch :: escDecode (d :: rest)

theorem escEncodeChar_ne (ch : Char) (hc : ¬ch = ':') (ha : ¬ch = 'a') :
    escEncodeChar ch = [ch] := by
  simp [escEncodeChar, hc, ha]

theorem escDecode_ab (l : List Char) : escDecode ('a' :: 'b' :: l) = ':' :: escDecode l := by
  rw [escDecode]
  norm_num

theorem escDecode_aa (l : List Char) : escDecode ('a' :: 'a' :: l) = 'a' :: escDecode l := by
  rw [escDecode, if_pos rfl, if_neg (by decide)]

theorem escDecode_cons_ne (ch : Char) (l : List Char) (ha : ¬ch = 'a') :
    escDecode (ch :: l) = ch :: escDecode l := by
  cases l with
  | nil => simp [escDecode, ha]
  | cons d rest => rw [escDecode, if_neg ha]

theorem escDecode_escEncode (l : List Char) : escDecode (escEncode l) = l := by
  induction l with
  | nil => rfl
  | cons ch rest ih =>
    by_cases hc : ch = ':'
    · subst hc
      have h1 : escEncode (':' :: rest) = 'a' :: 'b' :: escEncode rest := rfl
      rw [h1, escDecode_ab, ih]
    · by_cases ha : ch = 'a'
      · subst ha
        have h2 : escEncode ('a' :: rest) = 'a' :: 'a' :: escEncode rest := rfl
        rw [h2, escDecode_aa, ih]
      · rw [escEncode, escEncodeChar_ne ch hc ha, List.singleton_append,
          escDecode_cons_ne ch _ ha, ih]

theorem escEncode_no_sep (l : List Char) : (':' : Char) ∉ escEncode l := by
  induction l with
  | nil => simp [escEncode]
  | cons ch rest ih =>
    simp only [escEncode, List.mem_append, not_or]
    refine ⟨?_, ih⟩
    unfold escEncodeChar
    by_cases h1 : ch = ':'
    · simp [h1]
    · by_cases h2 : ch = 'a'
      · simp [h1, h2]
      · simp only [if_neg h1, if_neg h2, List.mem_singleton]
        exact fun h => h1 h.symm

/-- The escape coder packaged as a `Cipher` (it ignores the iv). -/
def escCipher : Cipher where
  encrypt := fun _ v => escEncode v.data
  decrypt := fun _ ct => String.mk (escDecode ct)
  decrypt_encrypt := by
    intro iv v
    show String.mk (escDecode (escEncode v.data)) = v
    rw [escDecode_escEncode]
  encrypt_no_sep := by
    intro iv v
    exact escEncode_no_sep v.data

/-- A concrete active vault: fresh, no secrets, an arbitrary 32-byte key. -/
def sampleVault : VaultState := SecretVault.create (List.replicate 32 7)

/-! ## Vault helper lemmas -/

theorem exceptBind_ok {ε α β : Type} (a : α) (f : α → Except ε β) :
    (Except.ok (ε := ε) a).bind f = f a := rfl

theorem store_ok (c : Cipher) (iv : List Char) (s : VaultState) (k v : String)
    (hact : s.isDestroyed = false) :
    SecretVault.store c iv s k v
      = .ok { s with secrets := mapSet s.secrets k (iv ++ ':' :: c.encrypt iv v) } := by
  simp [SecretVault.store, hact]

theorem retrieve_after_set (c : Cipher) (s' : VaultState) (iv : List Char) (k v : String)
    (hact : s'.isDestroyed = false) (hiv : (':' : Char) ∉ iv)
    (hget : mapGet s'.secrets k = some (iv ++ ':' :: c.encrypt iv v)) :
    SecretVault.retrieve c s' k = .ok (some v) := by
  have hblob_ne : iv ++ ':' :: c.encrypt iv v ≠ [] := by simp
  have hsplit : splitParts ':' (iv ++ ':' :: c.encrypt iv v) = iv :: [c.encrypt iv v] := by
    rw [splitParts_append _ _ _ hiv, splitParts_no_sep _ _ (c.encrypt_no_sep iv v)]
  simp [SecretVault.retrieve, hact, hget, hblob_ne, hsplit, c.decrypt_encrypt]

/-! ## Claims about the secret vault -/

/-- Claim C3: on an active vault, `retrieve` after `store` returns exactly the
stored value, a second `store` under the same key overwrites so the most
recent value wins, and `retrieve` of a never-stored key returns `null`. -/
theorem store_retrieve_roundtrip (c : Cipher) (s : VaultState)
    (iv iv2 : List Char) (k v v2 : String)
    (hact : s.isDestroyed = false)
    (hiv : (':' : Char) ∉ iv) (hiv2 : (':' : Char) ∉ iv2) :
    ((SecretVault.store c iv s k v).bind fun s1 => SecretVault.retrieve c s1 k)
        = .ok (some v)
    ∧ (((SecretVault.store c iv s k v).bind fun s1 =>
          SecretVault.store c iv2 s1 k v2).bind fun s2 => SecretVault.retrieve c s2 k)
        = .ok (some v2)
    ∧ (mapGet s.secrets k = none → SecretVault.retrieve c s k = .ok none) := by
  have h1 := store_ok c iv s k v hact
  refine ⟨?_, ?_, ?_⟩
  · rw [h1]
    exact retrieve_after_set c _ iv k v hact hiv (mapGet_mapSet_self _ _ _)
  · have h2 := store_ok c iv2
      { s with secrets := mapSet s.secrets k (iv ++ ':' :: c.encrypt iv v) } k v2 hact
    simp only [h1, exceptBind_ok, h2]
    exact retrieve_after_set c _ iv2 k v2 hact hiv2 (mapGet_mapSet_self _ _ _)
  · intro hnone
    simp [SecretVault.retrieve, hact, hnone]

/-- Witness for C3 at a concrete input: store `"v"` under `"k"`, retrieve it
back; overwrite with `"w"`, retrieve the overwritten value; retrieving from
the fresh vault yields `null`. -/
theorem store_retrieve_roundtrip_witness :
    (sampleVault.isDestroyed = false
      ∧ (':' : Char) ∉ (['0'] : List Char) ∧ (':' : Char) ∉ (['1'] : List Char))
    ∧ (((SecretVault.store escCipher ['0'] sampleVault ("k") ("v")).bind fun s1 =>
          SecretVault.retrieve escCipher s1 ("k")) = .ok (some ("v"))
        ∧ (((SecretVault.store escCipher ['0'] sampleVault ("k") ("v")).bind fun s1 =>
              SecretVault.store escCipher ['1'] s1 ("k") ("w")).bind fun s2 =>
            SecretVault.retrieve escCipher s2 ("k")) = .ok (some ("w"))
        ∧ (mapGet sampleVault.secrets ("k") = none →
            SecretVault.retrieve escCipher sampleVault ("k") = .ok none)) :=
  ⟨⟨rfl, by decide, by decide⟩,
    store_retrieve_roundtrip escCipher sampleVault ['0'] ['1'] ("k") ("v") ("w")
      rfl (by decide) (by decide)⟩

/-- Claim C6 counterexample: on a freshly destroyed vault, `has`, `delete`
and `getStatus` do not fail — they return normally (`.ok`), because the
source checks the destroyed flag in none of them. -/
theorem destroyed_introspection_cex :
    SecretVault.has (SecretVault.destroy sampleVault) ("k") = .ok false
    ∧ SecretVault.delete (SecretVault.destroy sampleVault) ("k")
        = .ok (false, SecretVault.destroy sampleVault)
    ∧ SecretVault.getStatus (SecretVault.destroy sampleVault)
        = .ok { secretCount := 0, isDestroyed := true } :=
  ⟨rfl, rfl, rfl⟩

/-- Claim C6 as amended: after `destroy()`, `store`/`retrieve`/`resolve`/
`listKeys` fail with `VaultDestroyedError`, while `has`, `delete` and
`getStatus` do not fail: `has` returns false, `delete` returns false leaving
the instance unchanged, and `getStatus` reports zero secrets and the
destroyed flag. -/
theorem destroyed_vault_interface (c : Cipher) (s : VaultState) (iv : List Char)
    (k v r : String) :
    SecretVault.store c iv (SecretVault.destroy s) k v = .error .destroyed
    ∧ SecretVault.retrieve c (SecretVault.destroy s) k = .error .destroyed
    ∧ SecretVault.resolve c (SecretVault.destroy s) r = .error .destroyed
    ∧ SecretVault.listKeys (SecretVault.destroy s) = .error .destroyed
    ∧ SecretVault.has (SecretVault.destroy s) k = .ok false
    ∧ SecretVault.delete (SecretVault.destroy s) k = .ok (false, SecretVault.destroy s)
    ∧ SecretVault.getStatus (SecretVault.destroy s)
        = .ok { secretCount := 0, isDestroyed := true } := by
  refine ⟨?_, ?_, ?_, ?_, ?_, ?_, ?_⟩ <;>
    simp [SecretVault.store, SecretVault.retrieve, SecretVault.resolve,
      SecretVault.listKeys, SecretVault.has, SecretVault.delete,
      SecretVault.getStatus, SecretVault.destroy, mapGet, mapDelete]

/-- Claim C7: on a destroyed vault (the destroyed flag is set by `destroy()`
and never cleared again), `store`, `retrieve` and `resolve` all fail with
`VaultDestroyedError`; and `destroy()` always leaves the flag set. -/
theorem destroyed_core_ops_fail (c : Cipher) (s : VaultState) (iv : List Char)
    (k v r : String) (hd : s.isDestroyed = true) :
    SecretVault.store c iv s k v = .error .destroyed
    ∧ SecretVault.retrieve c s k = .error .destroyed
    ∧ SecretVault.resolve c s r = .error .destroyed
    ∧ (SecretVault.destroy s).isDestroyed = true := by
  refine ⟨?_, ?_, ?_, rfl⟩ <;>
    simp [SecretVault.store, SecretVault.retrieve, SecretVault.resolve, hd]

/-- Witness for C7 at a concrete input: the destroyed sample vault. -/
theorem destroyed_core_ops_fail_witness :
    (SecretVault.destroy sampleVault).isDestroyed = true
    ∧ (SecretVault.store escCipher ['0'] (SecretVault.destroy sampleVault) ("k") ("v")
          = .error .destroyed
        ∧ SecretVault.retrieve escCipher (SecretVault.destroy sampleVault) ("k")
          = .error .destroyed
        ∧ SecretVault.resolve escCipher (SecretVault.destroy sampleVault) ("r")
          = .error .destroyed
        ∧ (SecretVault.destroy (SecretVault.destroy sampleVault)).isDestroyed = true) :=
  ⟨rfl, destroyed_core_ops_fail escCipher (SecretVault.destroy sampleVault)
    ['0'] ("k") ("v") ("r") rfl⟩

/-- Claim C10: `destroy()` is idempotent and total — a second `destroy()`
returns normally and leaves the state exactly as the first left it: no
stored secrets, every byte of the key buffer zero, destroyed flag set. -/
theorem destroy_idempotent_zeroed (s : VaultState) :
    SecretVault.destroy (SecretVault.destroy s) = SecretVault.destroy s
    ∧ (SecretVault.destroy s).secrets = []
    ∧ (∀ b ∈ (SecretVault.destroy s).encryptionKey, b = 0)
    ∧ (SecretVault.destroy s).isDestroyed = true := by
  refine ⟨?_, rfl, ?_, rfl⟩
  · simp [SecretVault.destroy, List.map_map]
  · intro b hb
    have hb' : b ∈ s.encryptionKey.map (fun _ => 0) := hb
    rcases List.mem_map.mp hb' with ⟨a, -, h⟩
    exact h.symm

/-- Claim C8 counterexample: with `"v"` stored under `"k"`, resolving the
reference `a \x7b\x7bsecrets.k\x7d\x7d b` returns just `"v"` — the decrypted
value alone, not the input with the placeholder substituted (which would be
`a v b`): the source does `return value`, discarding the surrounding text. -/
theorem resolve_no_substitution_cex :
    ((SecretVault.store escCipher ['0'] sampleVault ("k") ("v")).bind fun s1 =>
        SecretVault.resolve escCipher s1 ("a \x7b\x7bsecrets.k\x7d\x7d b")) = .ok ("v")
    ∧ ("v" : String) ≠ ("a v b") :=
  ⟨rfl, by decide⟩

/-- Claim C8 as amended: on an active vault, `resolve` returns the input
unchanged when the placeholder pattern does not match; fails with
`SecretNotFoundError` when the referenced key is absent; and when the
referenced key holds a non-empty value it returns the decrypted value
itself (the surrounding text of the reference is not preserved). -/
theorem resolve_behavior (c : Cipher) (s : VaultState) (r : String)
    (hact : s.isDestroyed = false) :
    (SecretVault.findPlaceholder r.data = none → SecretVault.resolve c s r = .ok r)
    ∧ (∀ nm, SecretVault.findPlaceholder r.data = some nm →
        SecretVault.retrieve c s (String.mk nm) = .ok none →
        SecretVault.resolve c s r = .error (.secretNotFound nm))
    ∧ (∀ nm v, SecretVault.findPlaceholder r.data = some nm →
        SecretVault.retrieve c s (String.mk nm) = .ok (some v) → v.isEmpty = false →
        SecretVault.resolve c s r = .ok v) := by
  refine ⟨?_, ?_, ?_⟩
  · intro h
    simp [SecretVault.resolve, hact, h]
  · intro nm h hr
    simp [SecretVault.resolve, hact, h, hr]
  · intro nm v h hr hv
    simp [SecretVault.resolve, hact, h, hr, hv]

/-- Witness for C8 (amended) at concrete inputs: `plain text` resolves to
itself, and a placeholder naming a never-stored key fails with
`SecretNotFoundError`. -/
theorem resolve_behavior_witness :
    sampleVault.isDestroyed = false
    ∧ SecretVault.resolve escCipher sampleVault ("plain text") = .ok ("plain text")
    ∧ SecretVault.resolve escCipher sampleVault ("\x7b\x7bsecrets.missing\x7d\x7d")
        = .error (.secretNotFound ("missing".data)) := by
  refine ⟨rfl, ?_, ?_⟩
  · exact (resolve_behavior escCipher sampleVault ("plain text") rfl).1 rfl
  · exact (resolve_behavior escCipher sampleVault ("\x7b\x7bsecrets.missing\x7d\x7d")
      rfl).2.1 ("missing".data) rfl rfl

/-- Claim C9: two `store` calls on an active vault with the same plaintext
but distinct fresh ivs produce distinct stored `iv:ciphertext` blobs (the
second call also overwrites the first, so the claim is read on the blob each
call wrote). -/
theorem store_fresh_iv_distinct (c : Cipher) (s : VaultState)
    (iv1 iv2 : List Char) (k v : String)
    (hact : s.isDestroyed = false) (hne : iv1 ≠ iv2)
    (hiv1 : (':' : Char) ∉ iv1) (hiv2 : (':' : Char) ∉ iv2) :
    ∀ s1 s2, SecretVault.store c iv1 s k v = .ok s1 →
      SecretVault.store c iv2 s1 k v = .ok s2 →
      mapGet s1.secrets k = some (iv1 ++ ':' :: c.encrypt iv1 v)
      ∧ mapGet s2.secrets k = some (iv2 ++ ':' :: c.encrypt iv2 v)
      ∧ mapGet s1.secrets k ≠ mapGet s2.secrets k := by
  intro s1 s2 hs1 hs2
  simp only [SecretVault.store, hact, Bool.false_eq_true, if_false, Except.ok.injEq] at hs1
  subst hs1
  simp only [SecretVault.store, hact, Bool.false_eq_true, if_false, Except.ok.injEq] at hs2
  subst hs2
  refine ⟨mapGet_mapSet_self _ _ _, mapGet_mapSet_self _ _ _, ?_⟩
  rw [mapGet_mapSet_self, mapGet_mapSet_self]
  intro hsome
  have hblob := Option.some.inj hsome
  have hsp := congrArg (splitParts ':') hblob
  rw [splitParts_append _ _ _ hiv1, splitParts_append _ _ _ hiv2] at hsp
  have hheads := (List.cons.inj hsp).1
  exact hne hheads

/-- Witness for C9 at a concrete input: ivs `0` and `1`, value `"v"`. -/
theorem store_fresh_iv_distinct_witness :
    (sampleVault.isDestroyed = false ∧ (['0'] : List Char) ≠ ['1']
      ∧ (':' : Char) ∉ (['0'] : List Char) ∧ (':' : Char) ∉ (['1'] : List Char))
    ∧ (∀ s1 s2, SecretVault.store escCipher ['0'] sampleVault ("k") ("v") = .ok s1 →
        SecretVault.store escCipher ['1'] s1 ("k") ("v") = .ok s2 →
        mapGet s1.secrets ("k") = some (['0'] ++ ':' :: escCipher.encrypt ['0'] ("v"))
        ∧ mapGet s2.secrets ("k") = some (['1'] ++ ':' :: escCipher.encrypt ['1'] ("v"))
        ∧ mapGet s1.secrets ("k") ≠ mapGet s2.secrets ("k")) :=
  ⟨⟨rfl, by decide, by decide, by decide⟩,
    store_fresh_iv_distinct escCipher sampleVault ['0'] ['1'] ("k") ("v")
      rfl (by decide) (by decide) (by decide)⟩

/-! ## Readiness poller (`src/mcp-servers/supabase/index.ts`, `waitForProjectReady`)

The loop body is discretized by poll index `n`: iteration `n` begins at
elapsed time `n * 5000` ms (the hardcoded `pollInterval` is 5000 and the
loop guard re-reads the clock after each 5000 ms sleep; the fetch itself is
taken as instantaneous). `fetch n` is what the `n`-th status request
produced: a parsed status when `response.ok` held, `httpError` when it did
not, `fetchThrow` when `fetch` threw (the `catch` block ignores it and the
loop continues). -/

inductive FetchResult where
  | ok (status : String)
  | httpError
  | fetchThrow
deriving DecidableEq, Repr

/-- How a `waitForProjectReady` call ends: normal return when the status
reached `ACTIVE_HEALTHY`, or the thrown timeout error naming
`maxWaitTime / 1000` seconds. -/
inductive PollOutcome where
  | ready
  | timedOut (seconds : Nat)
deriving DecidableEq, Repr

/-- The `while (Date.now() - startTime < maxWaitTime)` loop, entered at poll
index `n`: on a fetched `ACTIVE_HEALTHY` status return; on any other status,
a non-ok response or a thrown fetch, sleep and poll again; when the deadline
has passed, throw the timeout error. -/
def waitForProjectReadyGo (fetch : Nat → FetchResult) (maxWaitTime : Nat) (n : Nat) :
    PollOutcome :=
  if h : n * 5000 < maxWaitTime then
    match fetch n with
    | .ok status =>
      if status = ("ACTIVE_HEALTHY") then .ready
      else waitForProjectReadyGo fetch maxWaitTime (n + 1)
    | .httpError => waitForProjectReadyGo fetch maxWaitTime (n + 1)
    | .fetchThrow => waitForProjectReadyGo fetch maxWaitTime (n + 1)
  else .timedOut (maxWaitTime / 1000)
termination_by maxWaitTime - n * 5000
decreasing_by all_goals omega

/-- `waitForProjectReady(projectId, maxWaitTime)`: the loop from poll 0. -/
def waitForProjectReady (fetch : Nat → FetchResult) (maxWaitTime : Nat) : PollOutcome :=
  waitForProjectReadyGo fetch maxWaitTime 0

theorem pollGo_ready_iff (fetch : Nat → FetchResult) (maxWaitTime : Nat) (n : Nat) :
    waitForProjectReadyGo fetch maxWaitTime n = .ready ↔
      ∃ m, n ≤ m ∧ m * 5000 < maxWaitTime ∧ fetch m = .ok ("ACTIVE_HEALTHY") := by
  induction n using waitForProjectReadyGo.induct fetch maxWaitTime with
  | case1 n h hf =>
    rw [waitForProjectReadyGo]
    simp only [dif_pos h, hf, if_pos rfl]
    exact ⟨fun _ => ⟨n, le_refl n, h, hf⟩, fun _ => rfl⟩
  | case2 n h status hf hs ih =>
    rw [waitForProjectReadyGo]
    simp only [dif_pos h, hf, if_neg hs]
    rw [ih]
    constructor
    · rintro ⟨m, hm1, hm2, hm3⟩
      exact ⟨m, by omega, hm2, hm3⟩
    · rintro ⟨m, hm1, hm2, hm3⟩
      refine ⟨m, ?_, hm2, hm3⟩
      rcases Nat.eq_or_lt_of_le hm1 with he | hl
      · subst he
        rw [hm3] at hf
        have := FetchResult.ok.inj hf
        exact absurd this.symm hs
      · omega
  | case3 n h hf ih =>
    rw [waitForProjectReadyGo]
    simp only [dif_pos h, hf]
    rw [ih]
    constructor
    · rintro ⟨m, hm1, hm2, hm3⟩
      exact ⟨m, by omega, hm2, hm3⟩
    · rintro ⟨m, hm1, hm2, hm3⟩
      refine ⟨m, ?_, hm2, hm3⟩
      rcases Nat.eq_or_lt_of_le hm1 with he | hl
      · subst he
        rw [hm3] at hf
        cases hf
      · omega
  | case4 n h hf ih =>
    rw [waitForProjectReadyGo]
    simp only [dif_pos h, hf]
    rw [ih]
    constructor
    · rintro ⟨m, hm1, hm2, hm3⟩
      exact ⟨m, by omega, hm2, hm3⟩
    · rintro ⟨m, hm1, hm2, hm3⟩
      refine ⟨m, ?_, hm2, hm3⟩
      rcases Nat.eq_or_lt_of_le hm1 with he | hl
      · subst he
        rw [hm3] at hf
        cases hf
      · omega
  | case5 n h =>
    rw [waitForProjectReadyGo]
    simp only [dif_neg h]
    constructor
    · intro hco
      exact absurd hco (by simp)
    · rintro ⟨m, hm1, hm2, hm3⟩
      have hmul : n * 5000 ≤ m * 5000 := Nat.mul_le_mul_right 5000 hm1
      omega

theorem pollGo_dichotomy (fetch : Nat → FetchResult) (maxWaitTime : Nat) (n : Nat) :
    waitForProjectReadyGo fetch maxWaitTime n = .ready ∨
      waitForProjectReadyGo fetch maxWaitTime n = .timedOut (maxWaitTime / 1000) := by
  induction n using waitForProjectReadyGo.induct fetch maxWaitTime with
  | case1 n h hf =>
    rw [waitForProjectReadyGo]
    simp [dif_pos h, hf]
  | case2 n h status hf hs ih =>
    rw [waitForProjectReadyGo]
    simpa [dif_pos h, hf, if_neg hs] using ih
  | case3 n h hf ih =>
    rw [waitForProjectReadyGo]
    simpa [dif_pos h, hf] using ih
  | case4 n h hf ih =>
    rw [waitForProjectReadyGo]
    simpa [dif_pos h, hf] using ih
  | case5 n h =>
    rw [waitForProjectReadyGo]
    simp [dif_neg h]

/-- Claim C4 counterexample: a status sequence that is constantly the
terminal-failure status `INIT_FAILED` does not make the poller fail fast
with a resource-failed error — the source has no terminal-failure branch at
all, so the poller keeps polling and ends with the timeout error (here with
`maxWaitTime` 10000 ms: polls at 0 ms and 5000 ms, then the timeout naming
10 seconds), never an early failure. -/
theorem poller_no_failure_detection_cex :
    waitForProjectReady (fun _ => FetchResult.ok ("INIT_FAILED")) 10000
      = .timedOut 10
    ∧ waitForProjectReady (fun _ => FetchResult.ok ("INIT_FAILED")) 10000
      ≠ .ready := by
  constructor
  · rw [waitForProjectReady]
    rw [waitForProjectReadyGo]
    norm_num
    rw [waitForProjectReadyGo]
    norm_num
    rw [waitForProjectReadyGo]
    norm_num
    decide
  · rw [waitForProjectReady]
    rw [waitForProjectReadyGo]
    norm_num
    rw [waitForProjectReadyGo]
    norm_num
    rw [waitForProjectReadyGo]
    norm_num
    decide

/-- Claim C4 as amended: the poller returns successfully exactly when some
poll within the `maxWaitTime` window fetches the terminal success status
`ACTIVE_HEALTHY` (so non-success statuses, non-ok responses and thrown
fetches never abort polling — there is no terminal-failure detection), and
otherwise it fails with the timeout error naming the configured
`maxWaitTime / 1000` seconds. -/
theorem waitForProjectReady_behavior (fetch : Nat → FetchResult) (maxWaitTime : Nat) :
    (waitForProjectReady fetch maxWaitTime = .ready ↔
      ∃ m, m * 5000 < maxWaitTime ∧ fetch m = .ok ("ACTIVE_HEALTHY"))
    ∧ (waitForProjectReady fetch maxWaitTime = .timedOut (maxWaitTime / 1000) ↔
      ∀ m, m * 5000 < maxWaitTime → fetch m ≠ .ok ("ACTIVE_HEALTHY")) := by
  have hready := pollGo_ready_iff fetch maxWaitTime 0
  have hdich := pollGo_dichotomy fetch maxWaitTime 0
  constructor
  · rw [waitForProjectReady, hready]
    constructor
    · rintro ⟨m, -, hm2, hm3⟩
      exact ⟨m, hm2, hm3⟩
    · rintro ⟨m, hm2, hm3⟩
      exact ⟨m, Nat.zero_le m, hm2, hm3⟩
  · rw [waitForProjectReady]
    constructor
    · intro hto m hm2 hm3
      have hr : waitForProjectReadyGo fetch maxWaitTime 0 = .ready :=
        hready.mpr ⟨m, Nat.zero_le m, hm2, hm3⟩
      rw [hr] at hto
      cases hto
    · intro hnone
      rcases hdich with hr | hto
      · rcases hready.mp hr with ⟨m, -, hm2, hm3⟩
        exact absurd hm3 (hnone m hm2)
      · exact hto

/-! ## Tool dispatch boundary (`CallToolRequestSchema` handlers)

`GitHubMCPServer.setupHandlers` and `SupabaseMCPServer.setupHandlers` both
install `try { switch (name) { ... } } catch { failure envelope }`. A
handler method is modelled by what its invocation on the request's
arguments does: return a response value or throw an error with a message;
the `default:` arm throws `Unknown tool: <name>`, caught by the same
`catch`. The `catch` turns any thrown error into the serialized
`{success: false, error: <message>}` envelope; a returned value (always a
success envelope built by the handler itself) passes through untouched. -/

/-- The `arguments` object of a tool-call request: named fields. -/
abbrev Args := List (String × String)

/-- What the invoked handler did: return a value or throw. -/
inductive HandlerOutcome (α : Type) where
  | returns (v : α)
  | throws (msg : String)

/-- What crosses the dispatch boundary back to the transport: the handler's
own response, or the `{success: false, error: <message>}` failure envelope
built by the `catch` block. Exceptions cannot cross: the type has no
constructor for them. -/
inductive DispatchResult (α : Type) where
  | handlerResponse (v : α)
  | failureEnvelope (error : String)

/-- A thrown outcome as the `Except` the `try` block produces. -/
def ofOutcome {α : Type} : HandlerOutcome α → Except String α
  | .returns v => .ok v
  | .throws m => .error m

/-- The `catch` block: errors become failure envelopes. -/
def normalizeOutcome {α : Type} : HandlerOutcome α → DispatchResult α
  | .returns v => .handlerResponse v
  | .throws m => .failureEnvelope m

/-- The GitHub server's registered tool names, in `ListTools` order. -/
def githubToolNames : List String :=
  [("create_repository"), ("create_secret"), ("push_files")]

/-- The `required` field of each GitHub tool's `inputSchema`. -/
def githubRequiredFields (name : String) : List String :=
  if name = ("create_repository") then [("name"), ("description")]
  else if name = ("create_secret") then
    [("owner"), ("repo"), ("secret_name"), ("secret_value")]
  else if name = ("push_files") then [("owner"), ("repo"), ("files")]
  else []

/-- The `switch (name)` inside the GitHub server's `try`: each case invokes
the matching handler on the raw `args`; the default case throws. -/
def githubSwitch {α : Type} (h : String → Args → HandlerOutcome α)
    (name : String) (args : Args) : Except String α :=
  if name = ("create_repository") then ofOutcome (h name args)
  else if name = ("create_secret") then ofOutcome (h name args)
  else if name = ("push_files") then ofOutcome (h name args)
  else .error (("Unknown tool: ") ++ name)

/-- The GitHub server's `CallToolRequestSchema` handler: `try`/`catch`
around the switch. -/
def githubDispatch {α : Type} (h : String → Args → HandlerOutcome α)
    (name : String) (args : Args) : DispatchResult α :=
  match githubSwitch h name args with
  | .ok v => .handlerResponse v
  | .error m => .failureEnvelope m

/-- The Supabase server's registered tool names, in `ListTools` order. -/
def supabaseToolNames : List String :=
  [("create_project"), ("execute_sql"), ("configure_auth_provider"),
    ("get_project_info")]

/-- The `required` field of each Supabase tool's `inputSchema`. -/
def supabaseRequiredFields (name : String) : List String :=
  if name = ("create_project") then [("name"), ("db_password")]
  else if name = ("execute_sql") then [("project_ref"), ("sql")]
  else if name = ("configure_auth_provider") then
    [("project_ref"), ("provider"), ("client_id"), ("client_secret")]
  else if name = ("get_project_info") then [("project_ref")]
  else []

/-- The `switch (name)` inside the Supabase server's `try`. -/
def supabaseSwitch {α : Type} (h : String → Args → HandlerOutcome α)
    (name : String) (args : Args) : Except String α :=
  if name = ("create_project") then ofOutcome (h name args)
  else if name = ("execute_sql") then ofOutcome (h name args)
  else if name = ("configure_auth_provider") then ofOutcome (h name args)
  else if name = ("get_project_info") then ofOutcome (h name args)
  else .error (("Unknown tool: ") ++ name)

/-- The Supabase server's `CallToolRequestSchema` handler. -/
def supabaseDispatch {α : Type} (h : String → Args → HandlerOutcome α)
    (name : String) (args : Args) : DispatchResult α :=
  match supabaseSwitch h name args with
  | .ok v => .handlerResponse v
  | .error m => .failureEnvelope m

theorem githubSwitch_mem {α : Type} (h : String → Args → HandlerOutcome α)
    (name : String) (args : Args) (hmem : name ∈ githubToolNames) :
    githubSwitch h name args = ofOutcome (h name args) := by
  simp only [githubToolNames, List.mem_cons, List.mem_singleton,
    List.not_mem_nil, or_false] at hmem
  rcases hmem with h1 | h1 | h1 <;> subst h1 <;> simp [githubSwitch]

theorem supabaseSwitch_mem {α : Type} (h : String → Args → HandlerOutcome α)
    (name : String) (args : Args) (hmem : name ∈ supabaseToolNames) :
    supabaseSwitch h name args = ofOutcome (h name args) := by
  simp only [supabaseToolNames, List.mem_cons, List.mem_singleton,
    List.not_mem_nil, or_false] at hmem
  rcases hmem with h1 | h1 | h1 | h1 <;> subst h1 <;> simp [supabaseSwitch]

theorem githubSwitch_not_mem {α : Type} (h : String → Args → HandlerOutcome α)
    (name : String) (args : Args) (hmem : name ∉ githubToolNames) :
    githubSwitch h name args = .error (("Unknown tool: ") ++ name) := by
  simp only [githubToolNames, List.mem_cons, List.mem_singleton,
    List.not_mem_nil, or_false, not_or] at hmem
  obtain ⟨h1, h2, h3⟩ := hmem
  simp [githubSwitch, h1, h2, h3]

theorem supabaseSwitch_not_mem {α : Type} (h : String → Args → HandlerOutcome α)
    (name : String) (args : Args) (hmem : name ∉ supabaseToolNames) :
    supabaseSwitch h name args = .error (("Unknown tool: ") ++ name) := by
  simp only [supabaseToolNames, List.mem_cons, List.mem_singleton,
    List.not_mem_nil, or_false, not_or] at hmem
  obtain ⟨h1, h2, h3, h4⟩ := hmem
  simp [supabaseSwitch, h1, h2, h3, h4]

/-- Claim C1: both dispatchers always answer with a normalized envelope
(the `DispatchResult` type has no constructor for a propagated exception):
an unregistered name yields the `Unknown tool` failure envelope, a throwing
handler yields a failure envelope carrying exactly the thrown message, and
a normally returning handler has its value passed back as the success
envelope. -/
theorem dispatch_normalizes_envelopes {α : Type}
    (hg hs : String → Args → HandlerOutcome α) (name : String) (args : Args) :
    (name ∉ githubToolNames →
      githubDispatch hg name args = .failureEnvelope (("Unknown tool: ") ++ name))
    ∧ (∀ m, name ∈ githubToolNames → hg name args = .throws m →
        githubDispatch hg name args = .failureEnvelope m)
    ∧ (∀ v, name ∈ githubToolNames → hg name args = .returns v →
        githubDispatch hg name args = .handlerResponse v)
    ∧ (name ∉ supabaseToolNames →
      supabaseDispatch hs name args = .failureEnvelope (("Unknown tool: ") ++ name))
    ∧ (∀ m, name ∈ supabaseToolNames → hs name args = .throws m →
        supabaseDispatch hs name args = .failureEnvelope m)
    ∧ (∀ v, name ∈ supabaseToolNames → hs name args = .returns v →
        supabaseDispatch hs name args = .handlerResponse v) := by
  refine ⟨?_, ?_, ?_, ?_, ?_, ?_⟩
  · intro hnm
    rw [githubDispatch, githubSwitch_not_mem hg name args hnm]
  · intro m hmem hthrow
    rw [githubDispatch, githubSwitch_mem hg name args hmem, hthrow, ofOutcome]
  · intro v hmem hret
    rw [githubDispatch, githubSwitch_mem hg name args hmem, hret, ofOutcome]
  · intro hnm
    rw [supabaseDispatch, supabaseSwitch_not_mem hs name args hnm]
  · intro m hmem hthrow
    rw [supabaseDispatch, supabaseSwitch_mem hs name args hmem, hthrow, ofOutcome]
  · intro v hmem hret
    rw [supabaseDispatch, supabaseSwitch_mem hs name args hmem, hret, ofOutcome]

/-- Claim C5 counterexample: invoking `create_project` with an empty
arguments object — `db_password` is a required field of its schema and is
absent — does not return a validation failure: the dispatcher runs the
handler anyway (here one that returns normally, and its response comes
back as the dispatch result, not a `Failure` envelope citing the field). -/
theorem dispatcher_no_validation_cex :
    supabaseDispatch (fun _ _ => HandlerOutcome.returns 0) ("create_project") []
        = DispatchResult.handlerResponse 0
    ∧ ("db_password") ∈ supabaseRequiredFields ("create_project")
    ∧ mapGet ([] : Args) ("db_password") = none :=
  ⟨rfl, by decide, rfl⟩

/-- Claim C5 as amended: the dispatchers perform no argument-schema
validation at the boundary — for every registered tool the handler is
invoked on the raw arguments object unconditionally (missing required
fields included), and only the handler's own outcome is normalized into
the envelope. -/
theorem dispatcher_passes_args_unchecked {α : Type}
    (hg hs : String → Args → HandlerOutcome α) (name : String) (args : Args) :
    (name ∈ githubToolNames →
      githubDispatch hg name args = normalizeOutcome (hg name args))
    ∧ (name ∈ supabaseToolNames →
      supabaseDispatch hs name args = normalizeOutcome (hs name args)) := by
  constructor
  · intro hmem
    rw [githubDispatch, githubSwitch_mem hg name args hmem]
    cases hg name args <;> rfl
  · intro hmem
    rw [supabaseDispatch, supabaseSwitch_mem hs name args hmem]
    cases hs name args <;> rfl

/-- Claim C2: `withRetry` invokes the operation at most `maxRetries + 1`
times; a successful attempt returns its value with no further attempts;
after a failed attempt it retries exactly when attempts remain and the
failure's status is absent or in the retryable set, waiting
`initialDelayMs * 2 ^ attempt` first, and otherwise rethrows that very
failure at once; and when all attempts fail retryably the last attempt's
error is propagated unchanged. -/
theorem withRetry_policy_correct {α : Type} (f : Nat → AttemptResult α)
    (o : RetryOptions) :
    (withRetry f o).calls ≤ o.maxRetries + 1
    ∧ (∀ attempt v, f attempt = .ok v → retryGo f o attempt = ⟨.ok v, 1, []⟩)
    ∧ (∀ attempt e, f attempt = .fail e →
        (attempt < o.maxRetries ∧ shouldRetryStatus o e.status = true →
          retryGo f o attempt =
            ⟨(retryGo f o (attempt + 1)).result, (retryGo f o (attempt + 1)).calls + 1,
              o.initialDelayMs * 2 ^ attempt :: (retryGo f o (attempt + 1)).delays⟩)
        ∧ (¬(attempt < o.maxRetries ∧ shouldRetryStatus o e.status = true) →
          retryGo f o attempt = ⟨.error e, 1, []⟩))
    ∧ (∀ es : Nat → JsError, (∀ i, i ≤ o.maxRetries → f i = .fail (es i)) →
        (∀ i, i < o.maxRetries → shouldRetryStatus o (es i).status = true) →
        (withRetry f o).result = .error (es o.maxRetries)) := by
  refine ⟨retryGo_calls_le f o 0 (Nat.zero_le _), ?_, ?_, ?_⟩
  · intro attempt v hf
    rw [retryGo]
    simp only [hf]
  · intro attempt e hf
    constructor
    · intro hcond
      rw [retryGo]
      simp only [hf]
      rw [dif_pos hcond]
    · intro hcond
      rw [retryGo]
      simp only [hf]
      rw [dif_neg hcond]
  · intro es h1 h2
    exact retryGo_exhaust f o es h1 h2 0 (Nat.zero_le _)

/-- Witness for C2 at a concrete input: every attempt fails with status 503
(retryable under the default policy), so the call count is at most 4 and
the last error is propagated unchanged. -/
theorem withRetry_policy_correct_witness :
    ((withRetry (fun _ => AttemptResult.fail { message := ("boom"), status := some 503 }
        : Nat → AttemptResult Nat) defaultRetryOptions).calls ≤ 4)
    ∧ ((withRetry (fun _ => AttemptResult.fail { message := ("boom"), status := some 503 }
        : Nat → AttemptResult Nat) defaultRetryOptions).result
          = .error { message := ("boom"), status := some 503 }) := by
  constructor
  · exact (withRetry_policy_correct
      (fun _ => AttemptResult.fail { message := ("boom"), status := some 503 }
        : Nat → AttemptResult Nat)
      defaultRetryOptions).1
  · exact (withRetry_policy_correct
      (fun _ => AttemptResult.fail { message := ("boom"), status := some 503 }
        : Nat → AttemptResult Nat)
      defaultRetryOptions).2.2.2
      (fun _ => { message := ("boom"), status := some 503 }) (fun i _ => rfl)
      (fun i _ => rfl)
